import Mathlib

/-!
Verification of the core of an MDict dictionary engine (MDX/MDD reader,
persistent index builder, definition post-processor, multi-dictionary
registry) against its specification.  The Python source is shallowly
embedded: byte strings are `List Nat`, text strings are Lean `String`
(Python 3 `str`, a sequence of code points), fallible code returns
`Except`, and duck-typed collaborators (the SQLite store, zlib, the
builder object) are passed as explicit function parameters.
-/

namespace MdxServer

/-! ## Python string primitives

Helpers mirroring the Python string operations used by the source.
Whitespace and word-character classes follow the ASCII behaviour of the
CPython `str` methods and the `re` module classes `\s` and `\w`.
-/

/-- ASCII whitespace set of Python `str.strip` / `str.rstrip` and `\s`. -/
def pyIsSpace (c : Char) : Bool :=
  c = ' ' || c = '\t' || c = '\n' || c = '\r' ||
  c = Char.ofNat 11 || c = Char.ofNat 12

/-- Word character class `\w` of the `re` module (ASCII part). -/
def pyIsWordChar (c : Char) : Bool :=
  c.isAlphanum || c = '_'

/-- Python `str.strip()`: drop leading and trailing whitespace. -/
def pyStrip (s : String) : String :=
  String.mk (((s.data.dropWhile pyIsSpace).reverse.dropWhile pyIsSpace).reverse)

/-- Python `str.rstrip()`: drop trailing whitespace. -/
def pyRstrip (s : String) : String :=
  String.mk ((s.data.reverse.dropWhile pyIsSpace).reverse)

/-- Bool test that the list `p` occurs contiguously inside `s`,
Python `p in s` for strings. -/
def listHasInfix (p : List Char) : List Char → Bool
  | [] => p.isEmpty
  | c :: rest => p.isPrefixOf (c :: rest) || listHasInfix p rest

/-- Python `p in s` on strings: substring containment. -/
def strHasSub (s p : String) : Bool :=
  listHasInfix p.data s.data

/-- Python slice `l[a:b]` for byte strings with nonnegative bounds. -/
def pySlice (l : List Nat) (a b : Nat) : List Nat :=
  (l.take b).drop a

/-! ## Word validation and word lookup at the HTTP boundary

Embedding of `MDXServer._validate_word` and `MDXServer._handle_word_lookup`
from `mdx_server.py`.  The lookup backend (`MultiDictManager.query_dictionary`)
is passed as a function parameter.
-/

/-- Source `MDXServer._validate_word`: reject empty input, input longer
than a hard-coded 100 characters, and input containing the substring
`..`, `/`, or a backslash. -/
def validate_word (word : String) : Bool :=
  if word = "" || word.length > 100 then
    false
  else
    !(strHasSub word ".." || strHasSub word "/" || strHasSub word "\\")

/-- Claimed validator following the words of the specification: the
maximum length is read from the configuration field `max_word_length`
(default 100).  Used only to exhibit the divergence from the source,
whose `_validate_word` ignores the configuration. -/
def claimed_validate_word (maxLen : Nat) (word : String) : Bool :=
  if word = "" || word.length > maxLen then
    false
  else
    !(strHasSub word ".." || strHasSub word "/" || strHasSub word "\\")

/-- HTTP response produced by `_handle_word_lookup`. -/
inductive WordResponse where
  | errorPage (message : String)
  | ok (results : List String)
  | notFound (word : String)
  deriving Repr, DecidableEq

/-- Source `MDXServer._handle_word_lookup`: invalid words get an error
page; otherwise the word is queried and an empty result maps to a 404
page. -/
def handle_word_lookup (query : String → List String) (word : String) :
    WordResponse :=
  if !validate_word word then
    .errorPage "Invalid word"
  else
    match query word with
    | [] => .notFound word
    | r :: rs => .ok (r :: rs)

/-! ## Multi-dictionary registry

Embedding of `MultiDictManager` from `multi_dict_manager.py`.  A builder
is duck-typed: the only operation the manager calls is `mdx_lookup`,
which may raise; it is modelled as a function into `Except`.
-/

/-- Error raised by a lookup (`sqlite3.Error`, `OSError`, anything). -/
inductive LookupError where
  | dbError
  | ioError
  | otherError
  deriving Repr, DecidableEq

/-- Duck-typed `IndexBuilder` as seen by `MultiDictManager`. -/
structure Builder where
  mdx_lookup : String → Except LookupError (List String)

/-- One entry of `ServerConfig.dictionaries`. -/
structure DictConfig where
  name : String
  path : String
  route : String
  enabled : Bool

/-- The manager state: insertion-ordered association lists, matching the
insertion-ordered Python dicts `builders` and `dict_configs`. -/
structure DictManager where
  builders : List (String × Builder)
  dict_configs : List (String × DictConfig)

/-- Python `dict.get` / `x in dict` on an insertion-ordered dict modelled
as an association list: first binding wins. -/
def lookupAssoc {α : Type} (l : List (String × α)) (k : String) : Option α :=
  match l.find? (fun p => p.1 == k) with
  | some p => some p.2
  | none => none

/-- Source `MultiDictManager.load_dictionaries`: iterate the configs,
skip disabled ones, open each dictionary, and on any exception log and
continue with the rest.  Opening is passed in as `openDict` (it covers
the missing-file `continue` and the `IndexBuilder` constructor). -/
def load_dictionaries (openDict : String → Except LookupError Builder) :
    List (String × DictConfig) → List (String × Builder)
  | [] => []
  | (dictId, cfg) :: rest =>
    if cfg.enabled then
      match openDict cfg.path with
      | .ok b => (dictId, b) :: load_dictionaries openDict rest
      | .error _ => load_dictionaries openDict rest
    else
      load_dictionaries openDict rest

/-- Source `MultiDictManager.get_dictionary_by_route`: the empty route
selects the builder with id `default`, else the first builder; a
non-empty route is matched against the configs in order, requiring the
id to be among the loaded builders. -/
def get_dictionary_by_route (m : DictManager) (route : String) :
    Option Builder :=
  if route = "" then
    match lookupAssoc m.builders "default" with
    | some b => some b
    | none =>
      match m.builders with
      | [] => none
      | (_, b) :: _ => some b
  else
    findRoute m.builders m.dict_configs route
where
  /-- The scanning loop over `dict_configs.items()`. -/
  findRoute (builders : List (String × Builder)) :
      List (String × DictConfig) → String → Option Builder
    | [], _ => none
    | (dictId, cfg) :: rest, route =>
      if cfg.route == route then
        match lookupAssoc builders dictId with
        | some b => some b
        | none => findRoute builders rest route
      else
        findRoute builders rest route

/-- Source `MultiDictManager.get_dictionary_by_id`. -/
def get_dictionary_by_id (m : DictManager) (dictId : String) :
    Option Builder :=
  lookupAssoc m.builders dictId

/-- Builder resolution of `query_dictionary`: route first, then id. -/
def resolve_dictionary (m : DictManager) (dictIdOrRoute : String) :
    Option Builder :=
  match get_dictionary_by_route m dictIdOrRoute with
  | some b => some b
  | none => get_dictionary_by_id m dictIdOrRoute

/-- Source `MultiDictManager.query_dictionary`: resolve the builder by
route then id; missing builder gives `[]`; any exception out of
`mdx_lookup` is caught and gives `[]`. -/
def query_dictionary (m : DictManager) (dictIdOrRoute word : String) :
    List String :=
  match resolve_dictionary m dictIdOrRoute with
  | none => []
  | some b =>
    match b.mdx_lookup word with
    | .ok results => results
    | .error _ => []

/-! ## Definition post-processor: link redirection

Embedding of `MDXContentProcessor._process_content_links` from
`mdx_util.py`.  The builder is duck-typed again; for concrete scenarios
an in-memory dictionary provides `mdx_lookup`.
-/

/-- Match of `re.compile(r"@@@LINK=([\w\s]*)").match(item)`: the regex
matches at position 0 exactly when `item` starts with `@@@LINK=` (the
captured group may be empty) and group 1 is the maximal following run of
word or whitespace characters. -/
def link_pattern_match (item : String) : Option String :=
  if ("@@@LINK=".data).isPrefixOf item.data then
    some (String.mk ((item.data.drop 8).takeWhile
      (fun c => pyIsWordChar c || pyIsSpace c)))
  else
    none

/-- Source `MDXContentProcessor._process_content_links`: records whose
raw text matches the link pattern are replaced (via `extend`) by the
result of one further `mdx_lookup` of the whitespace-trimmed target;
other records are kept. -/
def process_content_links (lookup : String → List String) :
    List String → List String
  | [] => []
  | item :: rest =>
    match link_pattern_match item with
    | some captured => lookup (pyStrip captured) ++ process_content_links lookup rest
    | none => item :: process_content_links lookup rest

/-- In-memory model of `IndexBuilder.mdx_lookup` over a fixed key/record
table: the guard `if not keyword: return []`, then all records whose
`key_text` equals the keyword, in table order. -/
def assoc_mdx_lookup (db : List (String × String)) (keyword : String) :
    List String :=
  if keyword = "" then []
  else (db.filter (fun p => p.1 == keyword)).map (fun p => p.2)

/-- Text lookup as exercised by scenario S3: raw lookup followed by the
link redirect pass of the post-processor. -/
def lookup_text_with_links (db : List (String × String)) (word : String) :
    List String :=
  process_content_links (assoc_mdx_lookup db) (assoc_mdx_lookup db word)

/-- Link resolution as the specification words it (`recursively looking
up the target`, depth capped): a record that is a link is replaced by
the recursively resolved lookup of its target.  This definition follows
the words of the spec, for comparison with `process_content_links`. -/
def claimed_recursive_resolve (lookup : String → List String) :
    Nat → List String → List String
  | 0, content => content
  | fuel + 1, content =>
    content.foldr
      (fun item acc =>
        (match link_pattern_match item with
         | some captured =>
           claimed_recursive_resolve lookup fuel (lookup (pyStrip captured))
         | none => [item]) ++ acc)
      []

/-- The claimed text lookup of C1: raw lookup, then recursive link
resolution (the spec suggests a depth cap of 8). -/
def claimed_lookup_text (db : List (String × String)) (word : String) :
    List String :=
  claimed_recursive_resolve (assoc_mdx_lookup db) 8 (assoc_mdx_lookup db word)

/-! ## Definition post-processor: stylesheet substitution

Embedding of `IndexBuilder._replace_stylesheet` from `mdict_query.py`.
The Python function splits the record on the regex pattern of a
backquote, one or more digits, and a backquote, records the list of
separator tokens, and re-emits the fragments wrapped in the prefix and
suffix of each token number.
-/

/-- The backquote character. -/
def backquote : Char := Char.ofNat 96

/-- One-pass scanner equivalent to `re.split` and `re.findall` on the
token pattern (backquote, digits, backquote): the accumulator `frag`
holds the current fragment reversed, and `pending = some ds` means a
backquote followed by the reversed digits `ds` has been read but not yet
closed.  When a pending token fails to close, its characters flow back
into the fragment and scanning continues, matching the leftmost
non-overlapping behaviour of the regex engine. -/
def scanStyleTokens : List Char → List Char → Option (List Char) →
    List (List Char) × List (List Char)
  | [], frag, none => ([frag.reverse], [])
  | [], frag, some ds => ([(ds ++ backquote :: frag).reverse], [])
  | c :: rest, frag, none =>
    if c = backquote then
      scanStyleTokens rest frag (some [])
    else
      scanStyleTokens rest (c :: frag) none
  | c :: rest, frag, some ds =>
    if c.isDigit then
      scanStyleTokens rest frag (some (c :: ds))
    else if c = backquote then
      match ds with
      | [] => scanStyleTokens rest (backquote :: frag) (some [])
      | d :: ds2 =>
        let (frags, tags) := scanStyleTokens rest [] none
        (frag.reverse :: frags, (d :: ds2).reverse :: tags)
    else
      scanStyleTokens rest (c :: (ds ++ backquote :: frag)) none

/-- Split of a record on the style-token pattern: the fragments between
matches and the digit strings of the matches.  The fragment list is
always one longer than the tag list. -/
def splitStyleTokens (l : List Char) : List (List Char) × List (List Char) :=
  scanStyleTokens l [] none

/-- The emission step for one tagged fragment `p` with style pair
`(pre, suf)`: `pre + p + suf`, except that a fragment ending in a
newline is right-stripped and terminated with CRLF. -/
def style_one (pre suf p : String) : String :=
  match p.data.reverse with
  | '\n' :: _ => pre ++ pyRstrip p ++ suf ++ "\r\n"
  | _ => pre ++ p ++ suf

/-- Text-level body of source `IndexBuilder._replace_stylesheet`: the
semantics its statements compute when handed a `str`: split the record
on the token pattern, then fold over the tagged fragments looking each
tag up in the stylesheet map.  A tag missing from the stylesheet raises
`KeyError` in Python, modelled as `none`; the scanner guarantees the
tag and fragment lists line up.  The caller-side type mismatch (every
caller passes a bytes object, on which the split raises) is tracked by
`replace_stylesheet_typed` below. -/
def replace_stylesheet (stylesheet : List (String × String × String))
    (txt : String) : Option String :=
  match splitStyleTokens txt.data with
  | ([], _) => none
  | (f0 :: ps, tags) =>
    if tags.length = ps.length then
      (List.zip tags ps).foldlM
        (fun styled tp =>
          match lookupAssoc stylesheet (String.mk tp.1) with
          | none => none
          | some style =>
            some (styled ++ style_one style.1 style.2 (String.mk tp.2)))
        (String.mk f0)
    else
      none

/-- Errors raised on the stylesheet path of `get_mdx_by_index`. -/
inductive PyError where
  | typeError
  | keyError
  deriving Repr, DecidableEq

/-- A CPython value flowing through `get_mdx_by_index`: a text string
(`str`) or a byte string (`bytes`, carrying the text its UTF-8 bytes
spell). -/
inductive PyValue where
  | pyStr (s : String)
  | pyBytes (s : String)
  deriving Repr, DecidableEq

/-- Source `IndexBuilder._replace_stylesheet` with the CPython type of
its argument tracked: its first statement is `re.split` with a `str`
pattern, which raises `TypeError` on a bytes-like object; given a `str`
it computes the split-and-wrap emission of `replace_stylesheet`, a
missing tag being a `KeyError`. -/
def replace_stylesheet_typed (stylesheet : List (String × String × String)) :
    PyValue → Except PyError String
  | .pyBytes _ => .error .typeError
  | .pyStr s =>
    match replace_stylesheet stylesheet s with
    | none => .error .keyError
    | some out => .ok out

/-- Stylesheet branch of source `IndexBuilder.get_mdx_by_index`: after
the raw fetch the record is decoded, NUL-stripped and re-encoded
(`.encode("utf-8")`), so the value reaching the branch is a bytes
object, whose decoded text is `decoded`; with a non-empty stylesheet
`_replace_stylesheet` is applied to that bytes value, with an empty one
the record is decoded back to text and returned. -/
def get_mdx_by_index_styled (stylesheet : List (String × String × String))
    (decoded : String) : Except PyError String :=
  let record : PyValue := .pyBytes decoded
  if stylesheet.isEmpty then
    .ok decoded
  else
    match replace_stylesheet_typed stylesheet record with
    | .error e => .error e
    | .ok out => .ok out

/-! ## Index rows and the index builder

Embedding of `MDict._generate_index_info` from `readmdict.py`.  File
reading is abstracted one level: the record-block catalog has already
been parsed into `(compressed_size, decompressed_size)` pairs plus the
compression-type value the loop derives from the first four block bytes,
and the running file cursor is threaded explicitly, so the loop that
assigns keys to blocks and produces the persisted rows is modelled
exactly.
-/

/-- One persisted index row (the `index_dict` of the source, one row of
the `MDX_INDEX` table). -/
structure IndexRow where
  key_text : String
  file_pos : Nat
  compressed_size : Nat
  decompressed_size : Nat
  record_block_type : Nat
  record_start : Nat
  record_end : Nat
  offset : Nat
  deriving Repr, DecidableEq

/-- One entry of the record-block catalog as consumed by the index loop:
compressed size, decompressed size, and the compression-type value. -/
structure BlockInfo where
  compressed_size : Nat
  decompressed_size : Nat
  block_type : Nat
  deriving Repr, DecidableEq

/-- The inner `while` loop of `_generate_index_info`: consume the keys
that fall into the current record block.  A key is consumed while its
`record_start` minus the cumulative `offset` is below the decompressed
size; its `record_end` is the next key entry in the whole key list, or
`decompressed_size + offset` for the very last key.  Returns the rows
emitted for this block and the keys left for later blocks. -/
def consumeBlockKeys (pos cs ds ty offset : Nat) :
    List (Nat × String) → List IndexRow × List (Nat × String)
  | [] => ([], [])
  | (rs, kt) :: keys =>
    if offset + ds ≤ rs then
      ([], (rs, kt) :: keys)
    else
      let re :=
        match keys with
        | [] => ds + offset
        | (rs2, _) :: _ => rs2
      (⟨kt, pos, cs, ds, ty, rs, re, offset⟩ ::
          (consumeBlockKeys pos cs ds ty offset keys).1,
        (consumeBlockKeys pos cs ds ty offset keys).2)

/-- The outer loop of `_generate_index_info` over the record-block
catalog: `pos` is the file cursor at the start of the current block and
`offset` the cumulative decompressed offset. -/
def generate_index_rows (pos offset : Nat) :
    List BlockInfo → List (Nat × String) → List IndexRow
  | [], _ => []
  | b :: blocks, keys =>
    (consumeBlockKeys pos b.compressed_size b.decompressed_size
        b.block_type offset keys).1 ++
      generate_index_rows (pos + b.compressed_size)
        (offset + b.decompressed_size) blocks
        (consumeBlockKeys pos b.compressed_size b.decompressed_size
          b.block_type offset keys).2

/-- Decompressed-stream boundaries of the record blocks, relative to a
starting offset: one boundary at the end of each block. -/
def blockBoundaries (offset : Nat) : List BlockInfo → List Nat
  | [] => []
  | b :: blocks =>
    (offset + b.decompressed_size) ::
      blockBoundaries (offset + b.decompressed_size) blocks

/-- The record offsets of the key list are strictly increasing
(specification invariant 4). -/
def keysSorted : List (Nat × String) → Bool
  | [] => true
  | [_] => true
  | a :: b :: rest => a.1 < b.1 && keysSorted (b :: rest)

/-- For one block boundary: whenever a key starts strictly before the
boundary, the next key starts no later than it. -/
def keysNoStraddleAt (bound : Nat) : List (Nat × String) → Bool
  | a :: b :: rest =>
    (!decide (a.1 < bound) || decide (b.1 ≤ bound)) &&
      keysNoStraddleAt bound (b :: rest)
  | _ => true

/-- No record of the key list spans any block boundary. -/
def keysNoStraddle (bounds : List Nat) (keys : List (Nat × String)) : Bool :=
  bounds.all (fun b => keysNoStraddleAt b keys)

/-! ## Random-access record decompression

Embedding of `IndexBuilder._decompress_record_block`,
`IndexBuilder.get_mdx_by_index` (its raw part) and
`IndexBuilder.mdx_lookup` from `mdict_query.py`.  The container file is
a byte string; the seek and read become a Python slice; zlib inflation
is an explicit function parameter.
-/

/-- Errors of the record-block reader. -/
inductive RecordError where
  | unsupportedCompression
  | unknownCompression (t : Nat)
  deriving Repr, DecidableEq

/-- Source `IndexBuilder._decompress_record_block`: seek to `file_pos`,
read `compressed_size` bytes, dispatch on `record_block_type` (0 copies
past the 8-byte header, 1 raises for LZO, 2 zlib-inflates past the
header, anything else raises), then slice out
`[record_start - offset : record_end - offset]`. -/
def decompress_record_block (inflate : List Nat → List Nat)
    (file : List Nat) (row : IndexRow) : Except RecordError (List Nat) :=
  let record_block_compressed :=
    pySlice file row.file_pos (row.file_pos + row.compressed_size)
  if row.record_block_type = 0 then
    .ok (pySlice (record_block_compressed.drop 8)
      (row.record_start - row.offset) (row.record_end - row.offset))
  else if row.record_block_type = 1 then
    .error .unsupportedCompression
  else if row.record_block_type = 2 then
    .ok (pySlice (inflate (record_block_compressed.drop 8))
      (row.record_start - row.offset) (row.record_end - row.offset))
  else
    .error (.unknownCompression row.record_block_type)

/-- The decompressed record block an index row points at, before the
final slice: the stored bytes past the 8-byte header for type 0, the
inflated bytes for type 2. -/
def recordBlockBytes (inflate : List Nat → List Nat)
    (file : List Nat) (row : IndexRow) : List Nat :=
  let compressed :=
    pySlice file row.file_pos (row.file_pos + row.compressed_size)
  if row.record_block_type = 0 then compressed.drop 8
  else inflate (compressed.drop 8)

/-- The rows `mdx_lookup` fetches for a keyword: the guard for the empty
keyword, then the rows of the index table whose `key_text` matches. -/
def mdx_lookup_rows (db : List IndexRow) (keyword : String) :
    List IndexRow :=
  if keyword = "" then []
  else db.filter (fun r => r.key_text == keyword)

/-- The raw per-row payloads of `mdx_lookup`, before the decoding and
stylesheet post-processing of `get_mdx_by_index`. -/
def mdx_lookup_raw (inflate : List Nat → List Nat) (file : List Nat)
    (db : List IndexRow) (keyword : String) :
    List (Except RecordError (List Nat)) :=
  (mdx_lookup_rows db keyword).map (decompress_record_block inflate file)

/-! ## Key-block decoding

Embedding of `MDict._decode_key_block` from `readmdict.py`.  The
per-slab helpers (`_split_key_block`, adler32) are duck-typed
parameters; the compression-tag dispatch and error on the LZO tag are
modelled exactly.
-/

/-- Big-endian 32-bit read of four bytes. -/
def beU32 (l : List Nat) : Nat :=
  match l with
  | [b0, b1, b2, b3] => ((b0 * 256 + b1) * 256 + b2) * 256 + b3
  | _ => 0

/-- Errors of the key-block decoder. -/
inductive KeyBlockError where
  | unsupportedCompression
  | corruptBlock
  | invalidTag
  deriving Repr, DecidableEq

/-- Source `MDict._decode_key_block`: walk the `(cs, ds)` catalog over
the concatenated compressed key blocks at running position `i`; each
slab starts with a 4-byte compression tag and a 4-byte adler32 of the
decompressed slab; tag `00` copies, tag `01` (LZO) raises, tag `02`
inflates; the checksum must match.  An unrecognized tag leaves the slab
variable unassigned in the source (a `NameError`), modelled as
`invalidTag`. -/
def decode_key_block (inflate : List Nat → List Nat)
    (splitKeys : List Nat → List (Nat × String))
    (adler : List Nat → Nat) (data : List Nat) :
    List (Nat × Nat) → Nat → Except KeyBlockError (List (Nat × String))
  | [], _ => .ok []
  | (cs, _ds) :: info, i =>
    let tag := pySlice data i (i + 4)
    let adlerStored := beU32 (pySlice data (i + 4) (i + 8))
    if tag = [0, 0, 0, 0] then
      let key_block := pySlice data (i + 8) (i + cs)
      if adlerStored = adler key_block then
        match decode_key_block inflate splitKeys adler data info (i + cs) with
        | .ok rest => .ok (splitKeys key_block ++ rest)
        | .error e => .error e
      else
        .error .corruptBlock
    else if tag = [1, 0, 0, 0] then
      .error .unsupportedCompression
    else if tag = [2, 0, 0, 0] then
      let key_block := inflate (pySlice data (i + 8) (i + cs))
      if adlerStored = adler key_block then
        match decode_key_block inflate splitKeys adler data info (i + cs) with
        | .ok rest => .ok (splitKeys key_block ++ rest)
        | .error e => .error e
      else
        .error .corruptBlock
    else
      .error .invalidTag

/-! ## Sidecar load-or-rebuild policy

Embedding of `IndexBuilder._load_or_create_indexes` and
`IndexBuilder._load_meta_from_db` from `mdict_query.py`.  The sidecar
database is modelled by its observable content: absent, present but
unreadable (an `sqlite3.Error`), or present with a readable `META`
table.
-/

/-- The schema version constant `version = "1.1"` of `mdict_query.py`. -/
def schemaVersion : String := "1.1"

/-- Observable content of the sidecar META table. -/
structure MetaTable where
  version : Option String
  encoding : Option String
  stylesheet : Option String
  title : Option String
  description : Option String
  deriving Repr, DecidableEq

/-- What `_load_or_create_indexes` decides to do with the MDX sidecar. -/
inductive IndexAction where
  | build
  | rebuild
  | loadMeta
  deriving Repr, DecidableEq

/-- Source `IndexBuilder._load_meta_from_db`: returns True (metadata
loaded) exactly when the query for the `version` key returns a row; the
value of that row is stored but never compared to anything.  An
`sqlite3.Error` returns False. -/
def load_meta_from_db (sidecar : Except Unit MetaTable) : Bool :=
  match sidecar with
  | .error _ => false
  | .ok meta => meta.version.isSome

/-- Source `IndexBuilder._load_or_create_indexes` restricted to the MDX
sidecar: missing file builds, a failed metadata load rebuilds, a
successful one skips the rebuild. -/
def load_or_create_indexes (sidecar : Option (Except Unit MetaTable)) :
    IndexAction :=
  match sidecar with
  | none => .build
  | some db => if load_meta_from_db db then .loadMeta else .rebuild

/-- The load-or-rebuild policy as the specification words it: rebuild
whenever the stored version is absent or differs from the current
schema version.  This definition follows the words of the spec, for
comparison with `load_or_create_indexes`. -/
def claimed_load_decision (sidecar : Option (Except Unit MetaTable)) :
    IndexAction :=
  match sidecar with
  | none => .build
  | some (.error _) => .rebuild
  | some (.ok meta) =>
    if meta.version = some schemaVersion then .loadMeta else .rebuild

/-! ## Rebuild as a sequence of filesystem effects

Embedding of the effect order of `IndexBuilder._make_mdx_index`: delete
any existing sidecar, create the database file, insert the rows, insert
the metadata, commit.  The sidecar file passes through the states below;
there is no temporary file and no rename in the source.
-/

/-- Observable state of the sidecar file during a rebuild. -/
inductive SidecarState where
  | oldIntact
  | absent
  | incompleteNew
  | completeNew
  deriving Repr, DecidableEq

/-- Filesystem effects of `_make_mdx_index`, in program order. -/
inductive FsOp where
  | removeDb
  | createDb
  | insertRows
  | insertMeta
  | commitDb
  deriving Repr, DecidableEq

/-- Effect of one operation on the sidecar file: the remove deletes it,
the connect creates an empty database file, inserts leave it incomplete
until the final commit. -/
def applyFsOp : SidecarState → FsOp → SidecarState
  | _, .removeDb => .absent
  | _, .createDb => .incompleteNew
  | s, .insertRows => s
  | s, .insertMeta => s
  | _, .commitDb => .completeNew

/-- The effect sequence of `_make_mdx_index` (`os.remove` if the file
exists, `sqlite3.connect`, `executemany` of the rows, the `META` table,
`commit`). -/
def make_mdx_index_ops : List FsOp :=
  [.removeDb, .createDb, .insertRows, .insertMeta, .commitDb]

/-- All states the sidecar file passes through when running `ops` from
`init`, the initial state included. -/
def sidecarStates (init : SidecarState) (ops : List FsOp) :
    List SidecarState :=
  ops.scanl applyFsOp init

/-! ## Key enumeration

Embedding of `IndexBuilder.get_mdx_keys` from `mdict_query.py` (and the
identical `get_mdd_keys`).  The SQLite `LIKE` operator is modelled over
exact characters: percent matches any run, underscore any single
character.
-/

/-- Default ASCII case folding of the SQLite `LIKE` operator: the
uppercase letters A to Z fold to lowercase; every other character,
non-ASCII included, compares exactly. -/
def asciiFold (c : Char) : Char :=
  if 'A' ≤ c ∧ c ≤ 'Z' then Char.ofNat (c.toNat + 32) else c

/-- Scan for the LIKE percent wildcard: try the rest of the pattern at
every suffix of the subject. -/
def likeWildScan (rest : List Char → Bool) : List Char → Bool
  | [] => rest []
  | c :: s2 => rest (c :: s2) || likeWildScan rest s2

/-- SQLite `LIKE` pattern matching over the characters of pattern and
subject: percent matches any run of characters, underscore any single
character, and ordinary characters compare under the default ASCII case
folding of SQLite (`case_sensitive_like` is never set by the source). -/
def likeMatch : List Char → List Char → Bool
  | [], s => s.isEmpty
  | p :: ps, s =>
    if p = '%' then
      likeWildScan (likeMatch ps) s
    else
      match s with
      | [] => false
      | c :: s2 =>
        if p = '_' then likeMatch ps s2
        else decide (asciiFold p = asciiFold c) && likeMatch ps s2

/-- Python `query.replace` with the single-character arguments of the
source: map every star to a percent. -/
def starToPercent (q : String) : String :=
  String.mk (q.data.map (fun c => if c = '*' then '%' else c))

/-- Source `IndexBuilder.get_mdx_keys`: the empty query selects every
key; a query containing a star has stars mapped to the LIKE wildcard;
any other query matches as a prefix via an appended wildcard. -/
def get_mdx_keys (db : List String) (query : String) : List String :=
  if query = "" then db
  else
    let q := if '*' ∈ query.data then starToPercent query
             else query ++ "%"
    db.filter (fun k => likeMatch q.data k.data)

/-! ## Claim C1: link redirection -/

/-- C1 counterexample: link resolution is single-level, not recursive.
In a dictionary where `color` links to `colour`, `colour` links to
`hue`, and `hue` holds `a hue`, the post-processor returns the raw
record of `colour` (still a link), whereas recursively looking up the
target as the claim states yields `a hue`. -/
theorem C1_counterexample :
    lookup_text_with_links
      [("color", "@@@LINK=colour"), ("colour", "@@@LINK=hue"),
       ("hue", "a hue")] "color" = ["@@@LINK=hue"] ∧
    claimed_lookup_text
      [("color", "@@@LINK=colour"), ("colour", "@@@LINK=hue"),
       ("hue", "a hue")] "color" = ["a hue"] ∧
    (["@@@LINK=hue"] : List String) ≠ ["a hue"] := by
  refine ⟨by decide, by decide, by decide⟩

/-- C1 (amended): a record matching `@@@LINK=` at position 0 is replaced
by the result of one single further lookup of the whitespace-trimmed
target (linked records that are themselves links are not resolved
further), and in particular scenario S3 holds: with `color` linking to
`colour` and `colour` holding `a hue`, looking up `color` yields exactly
`[a hue]`. -/
theorem C1_link_redirect :
    (∀ (lookup : String → List String) (item : String) (rest : List String)
       (cap : String),
       link_pattern_match item = some cap →
       process_content_links lookup (item :: rest) =
         lookup (pyStrip cap) ++ process_content_links lookup rest) ∧
    lookup_text_with_links
      [("color", "@@@LINK=colour"), ("colour", "a hue")] "color" =
      ["a hue"] := by
  constructor
  · intro lookup item rest cap h
    simp [process_content_links, h]
  · decide

/-- Witness for C1: the hypothesis and conclusion of the amended theorem
at the concrete link record of scenario S3. -/
theorem C1_witness :
    link_pattern_match "@@@LINK=colour" = some "colour" ∧
    process_content_links (fun t => if t = "colour" then ["a hue"] else [])
      ["@@@LINK=colour"] = ["a hue"] := by
  have h : link_pattern_match "@@@LINK=colour" = some "colour" := by decide
  refine ⟨h, ?_⟩
  have h2 := C1_link_redirect.1
    (fun t => if t = "colour" then ["a hue"] else []) "@@@LINK=colour" [] "colour" h
  simpa using h2

/-! ## Claim C3: random-access record lookup -/

/-- C3: for a row whose block type is stored (0) or zlib (2), the
random-access reader returns exactly the slice
`[record_start - offset : record_end - offset]` of the decompressed
record block, and this per-row payload is what `mdx_lookup` computes for
the row before any decoding or stylesheet post-processing. -/
theorem C3_record_slice :
    (∀ (inflate : List Nat → List Nat) (file : List Nat) (row : IndexRow),
       row.record_block_type = 0 ∨ row.record_block_type = 2 →
       decompress_record_block inflate file row =
         .ok (pySlice (recordBlockBytes inflate file row)
           (row.record_start - row.offset) (row.record_end - row.offset))) ∧
    (∀ (inflate : List Nat → List Nat) (file : List Nat) (db : List IndexRow)
       (keyword : String) (row : IndexRow),
       row ∈ mdx_lookup_rows db keyword →
       decompress_record_block inflate file row ∈
         mdx_lookup_raw inflate file db keyword) := by
  constructor
  · intro inflate file row h
    rcases h with h | h <;> simp [decompress_record_block, recordBlockBytes, h]
  · intro inflate file db keyword row hmem
    exact List.mem_map_of_mem _ hmem

/-- Witness for C3: both parts of the theorem at a concrete stored block
holding bytes 10..14 at file position 3. -/
theorem C3_witness :
    ((⟨"k", 3, 13, 5, 0, 1, 3, 0⟩ : IndexRow).record_block_type = 0 ∨
      (⟨"k", 3, 13, 5, 0, 1, 3, 0⟩ : IndexRow).record_block_type = 2) ∧
    decompress_record_block id [9, 9, 9, 0, 0, 0, 0, 0, 0, 0, 0, 10, 11, 12, 13, 14]
      ⟨"k", 3, 13, 5, 0, 1, 3, 0⟩ = .ok [11, 12] ∧
    (⟨"k", 3, 13, 5, 0, 1, 3, 0⟩ : IndexRow) ∈
      mdx_lookup_rows [⟨"k", 3, 13, 5, 0, 1, 3, 0⟩] "k" ∧
    decompress_record_block id [9, 9, 9, 0, 0, 0, 0, 0, 0, 0, 0, 10, 11, 12, 13, 14]
      ⟨"k", 3, 13, 5, 0, 1, 3, 0⟩ ∈
      mdx_lookup_raw id [9, 9, 9, 0, 0, 0, 0, 0, 0, 0, 0, 10, 11, 12, 13, 14]
        [⟨"k", 3, 13, 5, 0, 1, 3, 0⟩] "k" := by
  have h0 : ((⟨"k", 3, 13, 5, 0, 1, 3, 0⟩ : IndexRow).record_block_type = 0 ∨
      (⟨"k", 3, 13, 5, 0, 1, 3, 0⟩ : IndexRow).record_block_type = 2) := Or.inl rfl
  have hmem : (⟨"k", 3, 13, 5, 0, 1, 3, 0⟩ : IndexRow) ∈
      mdx_lookup_rows [⟨"k", 3, 13, 5, 0, 1, 3, 0⟩] "k" := by decide
  refine ⟨h0, ?_, hmem, ?_⟩
  · have h := C3_record_slice.1 id
      [9, 9, 9, 0, 0, 0, 0, 0, 0, 0, 0, 10, 11, 12, 13, 14]
      ⟨"k", 3, 13, 5, 0, 1, 3, 0⟩ h0
    simpa using h
  · exact C3_record_slice.2 id
      [9, 9, 9, 0, 0, 0, 0, 0, 0, 0, 0, 10, 11, 12, 13, 14]
      [⟨"k", 3, 13, 5, 0, 1, 3, 0⟩] "k" ⟨"k", 3, 13, 5, 0, 1, 3, 0⟩ hmem

/-! ## Claim C4: sidecar load-or-rebuild policy -/

/-- C4 counterexample: a sidecar whose stored version is `0.9` differs
from the schema version constant `1.1`, so the claim mandates a rebuild,
but the source loads the metadata and skips the rebuild: only the
presence of the version row is checked, never its value. -/
theorem C4_counterexample :
    load_or_create_indexes
      (some (.ok ⟨some "0.9", none, none, none, none⟩)) = .loadMeta ∧
    claimed_load_decision
      (some (.ok ⟨some "0.9", none, none, none, none⟩)) = .rebuild ∧
    some "0.9" ≠ some schemaVersion ∧
    IndexAction.loadMeta ≠ IndexAction.rebuild := by
  refine ⟨by decide, by decide, by decide, by decide⟩

/-- C4 (amended): a missing sidecar is built; a sidecar whose metadata
cannot be read, or whose version row is absent, is rebuilt; a sidecar
with any version row present (whatever its value) skips the rebuild and
loads metadata. -/
theorem C4_version_presence_only :
    load_or_create_indexes none = .build ∧
    (∀ e, load_or_create_indexes (some (.error e)) = .rebuild) ∧
    (∀ m : MetaTable, m.version = none →
      load_or_create_indexes (some (.ok m)) = .rebuild) ∧
    (∀ (m : MetaTable) (v : String), m.version = some v →
      load_or_create_indexes (some (.ok m)) = .loadMeta) := by
  refine ⟨rfl, fun e => rfl, ?_, ?_⟩
  · intro m h
    simp [load_or_create_indexes, load_meta_from_db, h]
  · intro m v h
    simp [load_or_create_indexes, load_meta_from_db, h]

/-- Witness for C4: the amended theorem applied at a sidecar with an
absent version row and at one carrying version value `0.9`. -/
theorem C4_witness :
    (⟨none, none, none, none, none⟩ : MetaTable).version = none ∧
    load_or_create_indexes
      (some (.ok ⟨none, none, none, none, none⟩)) = .rebuild ∧
    (⟨some "0.9", none, none, none, none⟩ : MetaTable).version = some "0.9" ∧
    load_or_create_indexes
      (some (.ok ⟨some "0.9", none, none, none, none⟩)) = .loadMeta :=
  ⟨rfl, C4_version_presence_only.2.2.1 _ rfl, rfl,
    C4_version_presence_only.2.2.2 _ "0.9" rfl⟩

/-! ## Claim C5: rebuild atomicity -/

/-- C5 counterexample: during a rebuild the sidecar file passes through
the `absent` state (the source deletes the old index before writing the
new one in place), which is neither the intact old index nor a complete
new one. -/
theorem C5_counterexample :
    SidecarState.absent ∈ sidecarStates .oldIntact make_mdx_index_ops ∧
    SidecarState.absent ≠ SidecarState.oldIntact ∧
    SidecarState.absent ≠ SidecarState.completeNew := by
  refine ⟨by decide, by decide, by decide⟩

/-- C5 (amended): the rebuild is not atomic: `_make_mdx_index` first
removes any existing sidecar and then writes the new index in place, so
mid-rebuild the sidecar is absent or incomplete, and only the final
commit yields a complete new index; there is no temporary file and no
rename. -/
theorem C5_rebuild_in_place :
    sidecarStates .oldIntact make_mdx_index_ops =
      [.oldIntact, .absent, .incompleteNew, .incompleteNew,
       .incompleteNew, .completeNew] := rfl

/-! ## Claim C6: LZO rejection and registry resilience -/

/-- C6: decoding a key block whose compression tag is `01 00 00 00`
(LZO) fails with the unsupported-compression error and yields no key
list, and the registry loader skips a dictionary that fails to open,
loading exactly the remaining dictionaries. -/
theorem C6_lzo_rejected :
    (∀ (inflate : List Nat → List Nat)
       (splitKeys : List Nat → List (Nat × String)) (adler : List Nat → Nat)
       (data : List Nat) (cs ds i : Nat) (info : List (Nat × Nat)),
       pySlice data i (i + 4) = [1, 0, 0, 0] →
       decode_key_block inflate splitKeys adler data ((cs, ds) :: info) i =
         .error .unsupportedCompression) ∧
    (∀ (openDict : String → Except LookupError Builder)
       (xs ys : List (String × DictConfig)) (dictId : String)
       (cfg : DictConfig) (e : LookupError),
       cfg.enabled = true → openDict cfg.path = .error e →
       load_dictionaries openDict (xs ++ (dictId, cfg) :: ys) =
         load_dictionaries openDict (xs ++ ys)) := by
  constructor
  · intro inflate splitKeys adler data cs ds i info h
    simp [decode_key_block, h]
  · intro openDict xs ys dictId cfg e henabled herr
    induction xs with
    | nil => simp [load_dictionaries, henabled, herr]
    | cons x xs ih =>
      by_cases hx : x.2.enabled = true
      · cases hopen : openDict x.2.path <;>
          simp [load_dictionaries, hx, hopen, ih]
      · simp [load_dictionaries, hx, ih]

/-- Witness for C6: a concrete LZO-tagged key block is rejected, and a
registry with a good dictionary, a failing one, and another good one
loads exactly the two good ones. -/
theorem C6_witness :
    pySlice [1, 0, 0, 0, 7, 7, 7, 7, 5, 5] 0 4 = [1, 0, 0, 0] ∧
    decode_key_block id (fun _ => []) (fun _ => 0)
      [1, 0, 0, 0, 7, 7, 7, 7, 5, 5] [(10, 4)] 0 =
      .error .unsupportedCompression ∧
    (⟨"B", "b.mdx", "b", true⟩ : DictConfig).enabled = true ∧
    (fun p => if p = "b.mdx" then (.error .ioError : Except LookupError Builder)
              else .ok ⟨fun _ => .ok []⟩) "b.mdx" = .error .ioError ∧
    load_dictionaries
      (fun p => if p = "b.mdx" then .error .ioError else .ok ⟨fun _ => .ok []⟩)
      [("a", ⟨"A", "a.mdx", "", true⟩), ("b", ⟨"B", "b.mdx", "b", true⟩),
       ("c", ⟨"C", "c.mdx", "c", true⟩)] =
    load_dictionaries
      (fun p => if p = "b.mdx" then .error .ioError else .ok ⟨fun _ => .ok []⟩)
      [("a", ⟨"A", "a.mdx", "", true⟩), ("c", ⟨"C", "c.mdx", "c", true⟩)] := by
  refine ⟨rfl, ?_, rfl, ?_, ?_⟩
  · exact C6_lzo_rejected.1 id (fun _ => []) (fun _ => 0)
      [1, 0, 0, 0, 7, 7, 7, 7, 5, 5] 10 4 0 [] rfl
  · simp
  · exact C6_lzo_rejected.2
      (fun p => if p = "b.mdx" then .error .ioError else .ok ⟨fun _ => .ok []⟩)
      [("a", ⟨"A", "a.mdx", "", true⟩)] [("c", ⟨"C", "c.mdx", "c", true⟩)]
      "b" ⟨"B", "b.mdx", "b", true⟩ .ioError rfl (by simp)

/-! ## Claim C9: word validation at the HTTP boundary -/

/-- C9: the source validator hard-codes the maximum length 100 and never
consults the configured `max_word_length`: a 60-character word is
accepted and looked up even though a configured maximum of 50 would
reject it under the claimed validator. -/
theorem C9_hardcoded_max_length :
    validate_word (String.mk (List.replicate 60 'a')) = true ∧
    claimed_validate_word 50 (String.mk (List.replicate 60 'a')) = false ∧
    claimed_validate_word 100 (String.mk (List.replicate 60 'a')) = true ∧
    (∀ query : String → List String,
      handle_word_lookup query (String.mk (List.replicate 60 'a')) ≠
        .errorPage "Invalid word") := by
  have hv : validate_word (String.mk (List.replicate 60 'a')) = true := by decide
  refine ⟨hv, by decide, by decide, ?_⟩
  intro query
  unfold handle_word_lookup
  rw [hv]
  cases query (String.mk (List.replicate 60 'a')) <;> simp

/-! ## Claim C10: total query interface -/

/-- C10: `query_dictionary` is total at its interface: when neither the
route nor the id resolves to a loaded builder it returns the empty list,
and any exception out of the underlying `mdx_lookup` is caught and also
yields the empty list; a successful lookup is returned unchanged. -/
theorem C10_query_never_raises :
    ∀ (m : DictManager) (s w : String),
      (resolve_dictionary m s = none → query_dictionary m s w = []) ∧
      (∀ b e, resolve_dictionary m s = some b →
        b.mdx_lookup w = .error e → query_dictionary m s w = []) ∧
      (∀ b l, resolve_dictionary m s = some b →
        b.mdx_lookup w = .ok l → query_dictionary m s w = l) := by
  intro m s w
  refine ⟨?_, ?_, ?_⟩
  · intro h
    simp [query_dictionary, h]
  · intro b e h1 h2
    simp [query_dictionary, h1, h2]
  · intro b l h1 h2
    simp [query_dictionary, h1, h2]

/-- Witness for C10: a manager whose only builder always raises; the
query for any word returns the empty list rather than propagating. -/
theorem C10_witness :
    resolve_dictionary ⟨[("default", ⟨fun _ => .error .dbError⟩)], []⟩ "" =
      some ⟨fun _ => .error .dbError⟩ ∧
    (Builder.mk (fun _ => .error .dbError)).mdx_lookup "x" = .error .dbError ∧
    query_dictionary ⟨[("default", ⟨fun _ => .error .dbError⟩)], []⟩ "" "x" =
      [] := by
  refine ⟨rfl, rfl, ?_⟩
  exact (C10_query_never_raises
      ⟨[("default", ⟨fun _ => .error .dbError⟩)], []⟩ "" "x").2.1
    ⟨fun _ => .error .dbError⟩ .dbError rfl rfl

/-! ## Claim C2: stylesheet substitution -/

/-- C2: the stylesheet path of the source is broken: `get_mdx_by_index`
re-encodes the record to bytes before the stylesheet branch, and
`_replace_stylesheet` opens with `re.split` using a `str` pattern, so
with any non-empty stylesheet the lookup raises `TypeError` instead of
returning a styled record; at the S2 input no output is produced.
Moreover, even the text-level split-and-wrap semantics, had a `str`
been passed, would emit `hello <b>world</b><b></b>` followed by CRLF,
wrapping the trailing newline fragment too, not the output the claim
states. -/
theorem C2_stylesheet_type_error :
    get_mdx_by_index_styled [("1", "<b>", "</b>")] "hello `1`world`1`\n" =
      .error .typeError ∧
    (∀ (ss : List (String × String × String)) (s : String),
      ss.isEmpty = false →
      get_mdx_by_index_styled ss s = .error .typeError) ∧
    replace_stylesheet [("1", "<b>", "</b>")] "hello `1`world`1`\n" =
      some "hello <b>world</b><b></b>\r\n" ∧
    some "hello <b>world</b><b></b>\r\n" ≠ some "hello <b>world</b>\r\n" := by
  refine ⟨rfl, ?_, by decide, by decide⟩
  intro ss s h
  simp [get_mdx_by_index_styled, h, replace_stylesheet_typed]

/-- Witness for C2: the general conjunct of the theorem at a concrete
non-empty stylesheet and record. -/
theorem C2_witness :
    ([("1", "<b>", "</b>")] : List (String × String × String)).isEmpty =
      false ∧
    get_mdx_by_index_styled [("1", "<b>", "</b>")] "abc" =
      .error .typeError :=
  ⟨rfl, C2_stylesheet_type_error.2.1 [("1", "<b>", "</b>")] "abc" rfl⟩

/-! ## Claim C7: index row invariant -/

theorem keysSorted_tail {a : Nat × String} {keys : List (Nat × String)}
    (h : keysSorted (a :: keys) = true) : keysSorted keys = true := by
  cases keys with
  | nil => rfl
  | cons b rest =>
    simp only [keysSorted, Bool.and_eq_true] at h
    exact h.2

theorem keysSorted_head_lt (a : Nat × String) (keys : List (Nat × String)) :
    keysSorted (a :: keys) = true → ∀ k ∈ keys, a.1 < k.1 := by
  induction keys generalizing a with
  | nil =>
    intro _ k hk
    cases hk
  | cons b rest ih =>
    intro h k hk
    simp only [keysSorted, Bool.and_eq_true, decide_eq_true_eq] at h
    rcases List.mem_cons.mp hk with rfl | hk2
    · exact h.1
    · exact Nat.lt_trans h.1 (ih b h.2 k hk2)

theorem keysNoStraddleAt_tail {bound : Nat} {a : Nat × String}
    {keys : List (Nat × String)}
    (h : keysNoStraddleAt bound (a :: keys) = true) :
    keysNoStraddleAt bound keys = true := by
  cases keys with
  | nil => rfl
  | cons b rest =>
    simp only [keysNoStraddleAt, Bool.and_eq_true] at h
    exact h.2

theorem consumeBlockKeys_spec (pos cs ds ty offset : Nat) :
    ∀ keys : List (Nat × String),
      keysSorted keys = true →
      keysNoStraddleAt (offset + ds) keys = true →
      (∀ k ∈ keys, offset ≤ k.1) →
      (∀ row ∈ (consumeBlockKeys pos cs ds ty offset keys).1,
        offset ≤ row.record_start ∧ row.record_start < row.record_end ∧
        row.record_end ≤ offset + ds ∧ row.offset = offset ∧
        row.decompressed_size = ds) ∧
      keysSorted (consumeBlockKeys pos cs ds ty offset keys).2 = true ∧
      (∀ k ∈ (consumeBlockKeys pos cs ds ty offset keys).2,
        offset + ds ≤ k.1) ∧
      (∀ bound : Nat, keysNoStraddleAt bound keys = true →
        keysNoStraddleAt bound (consumeBlockKeys pos cs ds ty offset keys).2 =
          true) := by
  intro keys
  induction keys with
  | nil =>
    intro _ _ _
    refine ⟨?_, rfl, ?_, ?_⟩
    · intro row hrow; cases hrow
    · intro k hk; cases hk
    · intro bound _; rfl
  | cons hd keys ih =>
    intro hsort hstrad hlow
    obtain ⟨rs, kt⟩ := hd
    by_cases hguard : offset + ds ≤ rs
    · simp only [consumeBlockKeys, if_pos hguard]
      refine ⟨?_, hsort, ?_, ?_⟩
      · intro row hrow; cases hrow
      · intro k hk
        rcases List.mem_cons.mp hk with rfl | hk2
        · exact hguard
        · exact Nat.le_of_lt (Nat.lt_of_le_of_lt hguard
            (keysSorted_head_lt (rs, kt) keys hsort k hk2))
      · intro bound hb; exact hb
    · have hlt : rs < offset + ds := Nat.lt_of_not_le hguard
      have htail := ih (keysSorted_tail hsort) (keysNoStraddleAt_tail hstrad)
        (fun k hk => hlow k (List.mem_cons_of_mem _ hk))
      simp only [consumeBlockKeys, if_neg hguard]
      refine ⟨?_, htail.2.1, htail.2.2.1, ?_⟩
      · intro row hrow
        rcases List.mem_cons.mp hrow with rfl | hrow2
        · refine ⟨hlow (rs, kt) (List.mem_cons_self _ _), ?_, ?_, rfl, rfl⟩
          · cases keys with
            | nil =>
              dsimp only
              omega
            | cons nxt rest =>
              obtain ⟨rs2, kt2⟩ := nxt
              simp only [keysSorted, Bool.and_eq_true, decide_eq_true_eq]
                at hsort
              obtain ⟨hr, -⟩ := hsort
              dsimp only
              omega
          · cases keys with
            | nil =>
              dsimp only
              omega
            | cons nxt rest =>
              obtain ⟨rs2, kt2⟩ := nxt
              simp only [keysNoStraddleAt, Bool.and_eq_true, Bool.or_eq_true,
                Bool.not_eq_true', decide_eq_true_eq, decide_eq_false_iff_not]
                at hstrad
              rcases hstrad.1 with hfalse | hle
              · exact absurd hlt hfalse
              · dsimp only
                omega
        · exact htail.1 row hrow2
      · intro bound hb
        exact htail.2.2.2 bound (keysNoStraddleAt_tail hb)

/-- C7 counterexample: on a corrupt key list whose record offsets are
not increasing, the builder emits a row with record_start 5 and
record_end 0, violating the claimed invariant; nothing in the builder
checks the key list. -/
theorem C7_counterexample :
    ∃ r ∈ generate_index_rows 0 0 [⟨16, 10, 2⟩] [(5, "a"), (0, "b")],
      ¬(r.offset ≤ r.record_start ∧ r.record_start < r.record_end ∧
        r.record_end ≤ r.offset + r.decompressed_size) := by
  refine ⟨⟨"a", 0, 16, 10, 2, 5, 0, 0⟩, by decide, by decide⟩

/-- C7 (amended): provided the record offsets of the key list are
strictly increasing and no pair of consecutive keys straddles a record
block boundary, every index row produced by the builder satisfies
offset ≤ record_start < record_end ≤ offset + decompressed_size. -/
theorem C7_row_invariant :
    ∀ (blocks : List BlockInfo) (keys : List (Nat × String)) (pos offset : Nat),
      keysSorted keys = true →
      keysNoStraddle (blockBoundaries offset blocks) keys = true →
      (∀ k ∈ keys, offset ≤ k.1) →
      ∀ row ∈ generate_index_rows pos offset blocks keys,
        row.offset ≤ row.record_start ∧
        row.record_start < row.record_end ∧
        row.record_end ≤ row.offset + row.decompressed_size := by
  intro blocks
  induction blocks with
  | nil =>
    intro keys pos offset _ _ _ row hrow
    cases hrow
  | cons b blocks ih =>
    intro keys pos offset hsort hstrad hlow row hrow
    have hstrad2 :
        keysNoStraddleAt (offset + b.decompressed_size) keys = true ∧
        ∀ bd ∈ blockBoundaries (offset + b.decompressed_size) blocks,
          keysNoStraddleAt bd keys = true := by
      simp only [keysNoStraddle, blockBoundaries, List.all_cons,
        Bool.and_eq_true, List.all_eq_true] at hstrad
      exact hstrad
    have hspec := consumeBlockKeys_spec pos b.compressed_size
      b.decompressed_size b.block_type offset keys hsort hstrad2.1 hlow
    simp only [generate_index_rows, List.mem_append] at hrow
    rcases hrow with hrow | hrow
    · obtain ⟨h1, h2, h3, h4, h5⟩ := hspec.1 row hrow
      rw [h4, h5]
      exact ⟨h1, h2, h3⟩
    · refine ih _ (pos + b.compressed_size) (offset + b.decompressed_size)
        hspec.2.1 ?_ hspec.2.2.1 row hrow
      simp only [keysNoStraddle, List.all_eq_true]
      intro bd hbd
      exact hspec.2.2.2 bd (hstrad2.2 bd hbd)

/-- Witness for C7: the amended theorem on a well-formed two-block
catalog with four keys. -/
theorem C7_witness :
    keysSorted [(0, "a"), (4, "b"), (10, "c"), (12, "d")] = true ∧
    keysNoStraddle (blockBoundaries 0 [⟨16, 10, 2⟩, ⟨20, 6, 0⟩])
      [(0, "a"), (4, "b"), (10, "c"), (12, "d")] = true ∧
    (∀ k ∈ [(0, "a"), (4, "b"), (10, "c"), (12, "d")], 0 ≤ k.1) ∧
    (∀ row ∈ generate_index_rows 100 0 [⟨16, 10, 2⟩, ⟨20, 6, 0⟩]
        [(0, "a"), (4, "b"), (10, "c"), (12, "d")],
      row.offset ≤ row.record_start ∧
      row.record_start < row.record_end ∧
      row.record_end ≤ row.offset + row.decompressed_size) := by
  refine ⟨by decide, by decide, by decide, ?_⟩
  exact C7_row_invariant [⟨16, 10, 2⟩, ⟨20, 6, 0⟩]
    [(0, "a"), (4, "b"), (10, "c"), (12, "d")] 100 0
    (by decide) (by decide) (by decide)

/-! ## Claim C8: key enumeration -/

theorem likeWildScan_top : ∀ s : List Char, likeWildScan (likeMatch []) s = true := by
  intro s
  induction s with
  | nil => rfl
  | cons c s2 ih =>
    simp only [likeWildScan, ih, Bool.or_true]

theorem likeMatch_literal :
    ∀ (w s : List Char), (∀ c ∈ w, c ≠ '%' ∧ c ≠ '_') →
      (likeMatch w s = true ↔ w.map asciiFold = s.map asciiFold) := by
  intro w
  induction w with
  | nil =>
    intro s _
    cases s <;> simp [likeMatch]
  | cons p ps ih =>
    intro s hw
    have hp := hw p (List.mem_cons_self _ _)
    cases s with
    | nil => simp [likeMatch, hp.1]
    | cons c s2 =>
      simp only [likeMatch, if_neg hp.1, if_neg hp.2, Bool.and_eq_true,
        decide_eq_true_eq]
      rw [ih s2 (fun c hc => hw c (List.mem_cons_of_mem _ hc))]
      simp [List.cons.injEq]

theorem likeMatch_lit_percent :
    ∀ (w s : List Char), (∀ c ∈ w, c ≠ '%' ∧ c ≠ '_') →
      (likeMatch (w ++ ['%']) s = true ↔
        w.map asciiFold <+: s.map asciiFold) := by
  intro w
  induction w with
  | nil =>
    intro s _
    rw [show likeMatch ([] ++ ['%']) s = likeWildScan (likeMatch []) s from rfl,
      likeWildScan_top]
    simp [List.nil_prefix]
  | cons p ps ih =>
    intro s hw
    have hp := hw p (List.mem_cons_self _ _)
    cases s with
    | nil =>
      simp only [List.cons_append, likeMatch, if_neg hp.1]
      simp
    | cons c s2 =>
      simp only [List.cons_append, likeMatch, if_neg hp.1, if_neg hp.2,
        Bool.and_eq_true, decide_eq_true_eq, List.append_eq]
      rw [ih s2 (fun c hc => hw c (List.mem_cons_of_mem _ hc))]
      constructor
      · rintro ⟨hf, hpre⟩
        simp only [List.map_cons]
        exact List.cons_prefix_cons.mpr ⟨hf, hpre⟩
      · intro h
        simp only [List.map_cons] at h
        have := List.cons_prefix_cons.mp h
        exact ⟨this.1, this.2⟩

theorem likeWildScan_suffix :
    ∀ (w s : List Char), (∀ c ∈ w, c ≠ '%' ∧ c ≠ '_') →
      (likeWildScan (likeMatch w) s = true ↔
        w.map asciiFold <:+ s.map asciiFold) := by
  intro w s hw
  induction s with
  | nil =>
    simp only [likeWildScan]
    rw [likeMatch_literal w [] hw]
    simp [List.suffix_nil]
  | cons c s2 ih =>
    simp only [likeWildScan, Bool.or_eq_true]
    rw [likeMatch_literal w (c :: s2) hw, ih, List.map_cons,
      List.suffix_cons_iff]

/-- C8 counterexample: the leading-wildcard query `*foo` is a suffix
match, not a substring match: the key `food` contains `foo` but is not
returned. -/
theorem C8_counterexample :
    get_mdx_keys ["food"] "*foo" = [] ∧
    strHasSub "food" "foo" = true ∧
    "food" ∉ get_mdx_keys ["food"] "*foo" := by
  refine ⟨by decide, by decide, by decide⟩

/-- C8 (amended): the empty pattern returns every key; matching is the
LIKE of the store with its default ASCII case folding; a pattern
containing a star maps stars to the LIKE wildcard, so a leading-wildcard
query star-w is a case-insensitive suffix match over the keys; a pattern
with no star matches as a prefix (pattern plus wildcard), so w-star and
w both equal the same case-insensitive prefix match. -/
theorem C8_keys_enumeration :
    ∀ (db : List String) (w : List Char),
      (∀ c ∈ w, c ≠ '*' ∧ c ≠ '%' ∧ c ≠ '_') →
      get_mdx_keys db "" = db ∧
      get_mdx_keys db (String.mk ('*' :: w)) =
        db.filter
          (fun k => (w.map asciiFold).isSuffixOf (k.data.map asciiFold)) ∧
      get_mdx_keys db (String.mk (w ++ ['*'])) =
        db.filter
          (fun k => (w.map asciiFold).isPrefixOf (k.data.map asciiFold)) ∧
      get_mdx_keys db (String.mk w) =
        db.filter
          (fun k => (w.map asciiFold).isPrefixOf (k.data.map asciiFold)) := by
  intro db w hw
  have hwlit : ∀ c ∈ w, c ≠ '%' ∧ c ≠ '_' :=
    fun c hc => ⟨(hw c hc).2.1, (hw c hc).2.2⟩
  have hmapw : w.map (fun c => if c = '*' then '%' else c) = w := by
    rw [List.map_congr_left (fun c hc => if_neg ((hw c hc).1))]
    exact List.map_id' w
  refine ⟨by simp [get_mdx_keys], ?_, ?_, ?_⟩
  · have hne : ¬(String.mk ('*' :: w) = "") := by
      intro h
      exact absurd (congrArg String.data h) (by simp)
    have hstar : '*' ∈ (String.mk ('*' :: w)).data := List.mem_cons_self _ _
    simp only [get_mdx_keys, if_neg hne, if_pos hstar]
    have hq : (starToPercent (String.mk ('*' :: w))).data = '%' :: w := by
      simp [starToPercent, hmapw]
    rw [hq]
    refine List.filter_congr ?_
    intro k _
    have hiff := (likeWildScan_suffix w k.data hwlit).trans
      (List.isSuffixOf_iff_suffix).symm
    rw [show likeMatch ('%' :: w) k.data = likeWildScan (likeMatch w) k.data
      from rfl]
    revert hiff
    cases likeWildScan (likeMatch w) k.data <;>
      cases (w.map asciiFold).isSuffixOf (k.data.map asciiFold) <;> simp
  · have hne : ¬(String.mk (w ++ ['*']) = "") := by
      intro h
      exact absurd (congrArg String.data h) (by simp)
    have hstar : '*' ∈ (String.mk (w ++ ['*'])).data := by
      simp
    simp only [get_mdx_keys, if_neg hne, if_pos hstar]
    have hq : (starToPercent (String.mk (w ++ ['*']))).data = w ++ ['%'] := by
      simp [starToPercent, hmapw]
    rw [hq]
    refine List.filter_congr ?_
    intro k _
    have hiff := (likeMatch_lit_percent w k.data hwlit).trans
      (List.isPrefixOf_iff_prefix).symm
    revert hiff
    cases likeMatch (w ++ ['%']) k.data <;>
      cases (w.map asciiFold).isPrefixOf (k.data.map asciiFold) <;> simp
  · cases w with
    | nil =>
      have hpre : ∀ k : String,
          ((([] : List Char).map asciiFold).isPrefixOf
            (k.data.map asciiFold)) = true := by
        intro k
        simp
      have h1 : get_mdx_keys db (String.mk []) = db := by
        simp [get_mdx_keys]
      have h2 : db.filter
          (fun k => (([] : List Char).map asciiFold).isPrefixOf
            (k.data.map asciiFold)) = db :=
        List.filter_eq_self.mpr (fun a _ => hpre a)
      rw [h1, h2]
    | cons c0 w0 =>
      have hne : ¬(String.mk (c0 :: w0) = "") := by
        intro h
        exact absurd (congrArg String.data h) (by simp)
      have hstar : ¬('*' ∈ (String.mk (c0 :: w0)).data) := by
        intro hmem
        exact (hw '*' hmem).1 rfl
      simp only [get_mdx_keys, if_neg hne, if_neg hstar]
      have hq : (String.mk (c0 :: w0) ++ "%").data = (c0 :: w0) ++ ['%'] := by
        rw [String.data_append]
      rw [hq]
      refine List.filter_congr ?_
      intro k _
      have hiff := (likeMatch_lit_percent (c0 :: w0) k.data hwlit).trans
        (List.isPrefixOf_iff_prefix).symm
      revert hiff
      cases likeMatch ((c0 :: w0) ++ ['%']) k.data <;>
        cases ((c0 :: w0).map asciiFold).isPrefixOf (k.data.map asciiFold) <;>
          simp

/-- Witness for C8: the amended theorem on a concrete key set for the
word `foo`: empty query lists everything, star-foo is the
case-insensitive suffix match, foo-star and foo are the same
case-insensitive prefix match, which returns the mixed-case key `Foo`
as the store's LIKE does. -/
theorem C8_witness :
    (∀ c ∈ ['f', 'o', 'o'], c ≠ '*' ∧ c ≠ '%' ∧ c ≠ '_') ∧
    get_mdx_keys ["food", "Foo", "tool"] "" = ["food", "Foo", "tool"] ∧
    get_mdx_keys ["food", "Foo", "tool"] (String.mk ('*' :: ['f', 'o', 'o'])) =
      ["food", "Foo", "tool"].filter
        (fun k => (['f', 'o', 'o'].map asciiFold).isSuffixOf
          (k.data.map asciiFold)) ∧
    get_mdx_keys ["food", "Foo", "tool"]
        (String.mk (['f', 'o', 'o'] ++ ['*'])) =
      ["food", "Foo", "tool"].filter
        (fun k => (['f', 'o', 'o'].map asciiFold).isPrefixOf
          (k.data.map asciiFold)) ∧
    get_mdx_keys ["food", "Foo", "tool"] (String.mk ['f', 'o', 'o']) =
      ["food", "Foo", "tool"].filter
        (fun k => (['f', 'o', 'o'].map asciiFold).isPrefixOf
          (k.data.map asciiFold)) ∧
    get_mdx_keys ["food", "Foo", "tool"] (String.mk ['f', 'o', 'o']) =
      ["food", "Foo"] := by
  have hw : ∀ c ∈ ['f', 'o', 'o'], c ≠ '*' ∧ c ≠ '%' ∧ c ≠ '_' := by decide
  have h := C8_keys_enumeration ["food", "Foo", "tool"] ['f', 'o', 'o'] hw
  refine ⟨hw, h.1, h.2.1, h.2.2.1, h.2.2.2, ?_⟩
  rw [h.2.2.2]
  decide

end MdxServer
